import Mathlib

/-!
Shallow embedding of src/libgoserver.go: an embeddable HTTP server whose
route table is populated at runtime through registration calls, with a
middleware chain composed once at server start, a background task
subsystem drawing capacity tokens from a pool of buffered channels, and
an OpenAPI document generator that reads the live route table.

Modelling conventions:
- Go maps become association lists with functional update (a Go map can
  never hold two bindings of one key; theorems that need this carry a
  Nodup hypothesis on the key column).
- C string pointers crossing the foreign-function boundary become
  Option String, with none standing for a nil pointer.
- Go string helpers (strings.ToUpper, strings.ToLower, strings.HasPrefix)
  are modelled on the character lists underlying String, with the ASCII
  case mapping of Char.toUpper and Char.toLower.
- The wall clock value time.Now().UnixNano() is passed in as an integer
  parameter ts wherever the handler reads it.
-/

/-- Go strings.ToUpper, modelled as the ASCII character-wise mapping. -/
def goToUpper (s : String) : String := ⟨s.data.map Char.toUpper⟩

/-- Go strings.ToLower, modelled as the ASCII character-wise mapping. -/
def goToLower (s : String) : String := ⟨s.data.map Char.toLower⟩

/-- Go strings.HasPrefix, the prefix test the ServeMux applies for the
subtree pattern. -/
def goHasPrefix (pre s : String) : Bool := pre.data.isPrefixOf s.data

/-- ParameterInfo mirrors the Go struct of the same name; the Go field
named in is renamed inLoc because in is a Lean keyword. -/
structure ParameterInfo where
  name : String
  inLoc : String
  description : String
  required : Bool
  type : String
deriving DecidableEq, Repr

/-- RouteInfo mirrors the Go struct: route metadata stored in the
registry. The Go field Responses is a map from int to string, modelled
as an association list. -/
structure RouteInfo where
  Path : String
  Method : String
  Message : String
  Description : String
  Parameters : List ParameterInfo
  Responses : List (Nat × String)
deriving DecidableEq, Repr

/-- TaskResponse mirrors the Go struct serialized as the background_task
member of the success envelope. -/
structure TaskResponse where
  message : String
  task_id : String
deriving DecidableEq, Repr

/-- ApiResponse mirrors the Go struct serialized as the success
envelope. -/
structure ApiResponse where
  message : String
  background_task : TaskResponse
deriving DecidableEq, Repr

/-- The route registry: the Go global routes of type map from string to
RouteInfo, modelled as an association list. -/
abbrev Routes := List (String × RouteInfo)

/-- Go map assignment routes[key] = v: replace the binding when the key
is present, otherwise add the binding. -/
def routesInsert : Routes → String → RouteInfo → Routes
  | [], k, v => [(k, v)]
  | kv :: rest, k, v =>
    if kv.1 = k then (k, v) :: rest else kv :: routesInsert rest k v

/-- Go map lookup routes[key] with its presence flag. -/
def routesLookup : Routes → String → Option RouteInfo
  | [], _ => none
  | kv :: rest, k => if kv.1 = k then some kv.2 else routesLookup rest k

/-- RegisterRoute (src/libgoserver.go lines 139-172). Only nil pointers
are rejected (the Go code has no emptiness check); the method is
uppercased and the route is stored under key path ++ method with an
empty parameter list and the single response entry 200. -/
def RegisterRoute (rs : Routes) (cPath cMethod cMessage cDesc : Option String) : Routes :=
  match cPath, cMethod, cMessage, cDesc with
  | some path, some method0, some message, some desc =>
    let method := goToUpper method0
    routesInsert rs (path ++ method)
      { Path := path, Method := method, Message := message, Description := desc
        Parameters := []
        Responses := [(200, "Successful response")] }
  | _, _, _, _ => rs

/-- The key the dynamic dispatcher computes at line 254 of the source:
key := r.URL.Path + r.Method. The request method is used exactly as
sent, with no case normalization. -/
def dispatchKey (path method : String) : String := path ++ method

/-- The scan at lines 261-268: the stored Method of the first route whose
Path field equals the request path, or the empty string (the Go zero
value) when no route matches. Go iterates the map in unspecified order
and breaks at the first hit; the model takes the first hit in list
order, and the theorems only use that the returned method belongs to
some route registered for the path. -/
def findSupportedMethod : Routes → String → String
  | [], _ => ""
  | kv :: rest, path =>
    if kv.2.Path = path then kv.2.Method else findSupportedMethod rest path

/-- One method sub-entry of the OpenAPI paths object (lines 208-212):
summary, the description text of the 200 response, and the parameter
list. -/
structure PathEntry where
  summary : String
  response200 : String
  parameters : List ParameterInfo
deriving DecidableEq, Repr

/-- The openapi.Paths object: a map from path to a map from lowercased
method to entry, modelled as nested association lists. -/
abbrev PathsDoc := List (String × List (String × PathEntry))

/-- Assignment into the inner method map of one path. -/
def innerInsert : List (String × PathEntry) → String → PathEntry → List (String × PathEntry)
  | [], m, e => [(m, e)]
  | me :: rest, m, e =>
    if me.1 = m then (m, e) :: rest else me :: innerInsert rest m e

/-- The nested map assignment at lines 205-212: ensure the path has an
inner map, then write the method entry into it. -/
def pathsInsert : PathsDoc → String → String → PathEntry → PathsDoc
  | [], p, m, e => [(p, [(m, e)])]
  | pe :: rest, p, m, e =>
    if pe.1 = p then (p, innerInsert pe.2 m e) :: rest
    else pe :: pathsInsert rest p m e

/-- Read of the inner method map. -/
def innerLookup : List (String × PathEntry) → String → Option PathEntry
  | [], _ => none
  | me :: rest, m => if me.1 = m then some me.2 else innerLookup rest m

/-- Read of the nested paths object at a path and a lowercased method. -/
def docLookup : PathsDoc → String → String → Option PathEntry
  | [], _, _ => none
  | pe :: rest, p, m => if pe.1 = p then innerLookup pe.2 m else docLookup rest p m

/-- Presence of a path key in the paths object. -/
def docHasPath : PathsDoc → String → Bool
  | [], _ => false
  | pe :: rest, p => pe.1 == p || docHasPath rest p

/-- Go map read route.Responses[200], returning the zero value for a
missing key. -/
def responsesGet : List (Nat × String) → Nat → String
  | [], _ => ""
  | cv :: rest, code => if cv.1 = code then cv.2 else responsesGet rest code

/-- The entry value built for one route at lines 208-212. -/
def mkDocEntry (r : RouteInfo) : PathEntry :=
  { summary := r.Description
    response200 := responsesGet r.Responses 200
    parameters := r.Parameters }

/-- ServeOpenAPI (lines 192-220): one pass over the registry building the
paths object. The constant info and components members carry no route
data and are omitted from the model; Go iterates the map in unspecified
order, modelled as list order, and the theorems establish that the
resulting object does not depend on that order. -/
def ServeOpenAPI (rs : Routes) : PathsDoc :=
  rs.foldl (fun doc kv => pathsInsert doc kv.2.Path (goToLower kv.2.Method) (mkDocEntry kv.2)) []

/-- Responses of an HTTP exchange as far as the claims need them.
notFound msg stands for status 404 with body the JSON error envelope
whose error member is msg, written by http.Error at line 274; success
body stands for status 200 with the JSON-encoded ApiResponse; openapiDoc
stands for the document written by ServeOpenAPI with status 200;
swaggerStatic stands for whatever the static file server returns for the
path. -/
inductive HttpResponse where
  | success (body : ApiResponse)
  | notFound (msg : String)
  | openapiDoc (doc : PathsDoc)
  | swaggerStatic
deriving DecidableEq, Repr

/-- HTTP status code of a modelled response. The status of a static file
response depends on the disk contents, which are outside the model; no
theorem relies on that arm. -/
def statusOf : HttpResponse → Nat
  | .success _ => 200
  | .notFound _ => 404
  | .openapiDoc _ => 200
  | .swaggerStatic => 200

/-- The success envelope built at lines 278-285 for the timestamp ts read
from time.Now().UnixNano(): the route message plus the background task
stanza with identifier task- followed by the decimal timestamp. -/
def mkEnvelope (message : String) (ts : Int) : ApiResponse :=
  { message := message
    background_task :=
      { message := "Task started in background: task-" ++ toString ts
        task_id := "task-" ++ toString ts } }

/-- The dynamic route handler registered at pattern / (lines 253-295).
On a hit it serves the success envelope; on a miss it builds the 404
message, appending the method hint when the scan found a route with a
non-empty stored method for the path. The spawning of the background
task after the response is written is modelled separately by the pool
state machine below. -/
def dynamicHandler (rs : Routes) (path method : String) (ts : Int) : HttpResponse :=
  match routesLookup rs (dispatchKey path method) with
  | some route => .success (mkEnvelope route.Message ts)
  | none =>
    let base := "Route not found for " ++ method ++ " " ++ path
    let supportedMethod := findSupportedMethod rs path
    .notFound (if supportedMethod ≠ "" then base ++ " - Try using method " ++ supportedMethod else base)

/-- Routing performed by the net/http ServeMux as configured at lines
248-253: the exact pattern /openapi.json, the subtree pattern /swagger/,
and the catch-all pattern / holding the dynamic handler. The longest
matching pattern wins, so the two documentation endpoints shadow the
dynamic handler on their paths. -/
def serverHandle (rs : Routes) (path method : String) (ts : Int) : HttpResponse :=
  if path = "/openapi.json" then .openapiDoc (ServeOpenAPI rs)
  else if goHasPrefix "/swagger/" path then .swaggerStatic
  else dynamicHandler rs path method ts

/-- The built-in middleware implementations the switch at lines 97-103
recognizes; logging is the only known name. -/
inductive MW where
  | logging
deriving DecidableEq, Repr

/-- Middleware registration state: the global middlewares slice plus the
snapshot taken by StartServer (none before the server has started). The
slice stores which built-in was appended; the wrapper function itself is
interpreted by the impl parameter of installedChain. -/
structure MwState where
  middlewares : List MW
  installed : Option (List MW)
deriving DecidableEq, Repr

/-- RegisterMiddleware (lines 81-104): a nil name pointer is rejected, a
zero enabled flag skips the registration, the known name logging is
appended to the slice, and unknown names are logged and ignored. -/
def RegisterMiddleware (s : MwState) (cName : Option String) (cEnabled : Int) : MwState :=
  match cName with
  | none => s
  | some name =>
    if cEnabled = 0 then s
    else if name = "logging" then { s with middlewares := s.middlewares ++ [MW.logging] }
    else s

/-- The point-in-time read StartServer performs at lines 240-245 and
installs at line 298: the middleware slice as it stands at start is
frozen into the installed chain. -/
def startServerMw (s : MwState) : MwState := { s with installed := some s.middlewares }

/-- The chain-building loop at lines 241-244, index-faithful: handler is
the terminal handler, and for i from the slice length minus one down to
zero the handler is rewrapped as middlewares[i](handler). -/
def buildLoop {H : Type} (ws : List (H → H)) : Nat → H → H
  | 0, h => h
  | n + 1, h => buildLoop ws n (ws.getD n id h)

/-- The handler produced by the loop for a whole slice. -/
def buildChain {H : Type} (ws : List (H → H)) (terminal : H) : H :=
  buildLoop ws ws.length terminal

/-- The handler actually installed on the server, given an interpretation
impl of each built-in middleware as a wrapper over an abstract handler
type. Before start nothing is installed and requests would not be
served; the terminal handler stands in for that arm, which no theorem
uses. -/
def installedChain {H : Type} (s : MwState) (impl : MW → H → H) (terminal : H) : H :=
  match s.installed with
  | some ws => buildChain (ws.map impl) terminal
  | none => terminal

/-- Buffer capacity of the channels the pool allocates (line 69). -/
def poolCap : Nat := 10

/-- State of the global taskPool (line 69), a sync.Pool whose New
function allocates a fresh buffered channel of capacity poolCap.
pool lists the indices of channels currently held inside the pool, and
fill lists, for every channel ever allocated, how many slot tokens it
currently holds. The source never calls taskPool.Put anywhere, so
nothing is ever added back to pool. -/
structure PoolState where
  pool : List Nat
  fill : List Nat
deriving DecidableEq, Repr

/-- taskPool.Get as called at line 293: hand out a pooled channel when
one is present, otherwise run New, allocating a fresh empty channel.
Returns the index of the channel handed to the new TaskManager
goroutine. -/
def taskPoolGet (s : PoolState) : Nat × PoolState :=
  match s.pool with
  | c :: rest => (c, { s with pool := rest })
  | [] => (s.fill.length, { s with fill := s.fill ++ [0] })

/-- The buffered send on channel c performed by the acquire case of
TaskManager: adds a token when the buffer has room, and returns none
when the send would block or the channel index is out of range. -/
def chanSend (s : PoolState) (c : Nat) : Option PoolState :=
  match s.fill.get? c with
  | some f => if f < poolCap then some { s with fill := s.fill.set c (f + 1) } else none
  | none => none

/-- One dispatch (lines 293-294) whose TaskManager goroutine immediately
reaches its acquire: Get a channel from the pool, then send one token on
it; when the send would block, the state is left as after the Get. -/
def stepDispatchAcquire (s : PoolState) : PoolState :=
  let cs := taskPoolGet s
  match chanSend cs.2 cs.1 with
  | some s2 => s2
  | none => cs.2

/-- Pool state after n such dispatches starting from the initial empty
pool. -/
def runDispatches : Nat → PoolState
  | 0 => { pool := [], fill := [] }
  | n + 1 => stepDispatchAcquire (runDispatches n)

/-- Number of background tasks currently holding a slot: the total number
of tokens across all allocated channels (each TaskManager holds at most
one token, on the channel it was handed). -/
def runningTasks (s : PoolState) : Nat := s.fill.sum

/-- Outcomes TaskManager logs (lines 179-187). -/
inductive TMOutcome where
  | completed
  | cancelledMidRun
  | notStarted
deriving DecidableEq, Repr

/-- The two cases of the select at lines 177-188: the buffered send that
acquires a slot, and the ctx.Done case taken under shutdown. -/
inductive TMBranch where
  | acquire
  | shutdown
deriving DecidableEq, Repr

/-- One TaskManager execution (lines 175-189) on a channel holding fill
tokens, viewed in isolation: no other goroutine sends or receives on the
channel, which is the executed scenario in the source, where every
TaskManager receives the channel taskPool.Get just produced. cancelled
says whether the shared context is already cancelled when the outer
select runs; the branch argument is the ready select case taken (Go
picks among ready cases: shutdown requires cancelled, acquire requires
buffer room, and when the branch is not ready the result is none).
midRunCancelled decides the inner select between the 2 second timer and
cancellation. The deferred receive registered at line 176 runs on every
return path: after an acquire it takes back the token just sent, and on
the shutdown path it still runs, consuming a token when one is present
and blocking forever on an empty channel, which yields none. Otherwise
the result is the final token count and the logged outcome. -/
def TaskManagerRun (cancelled midRunCancelled : Bool) (fill : Nat) :
    TMBranch → Option (Nat × TMOutcome)
  | .acquire =>
    if fill < poolCap then
      some (fill + 1 - 1, if midRunCancelled then .cancelledMidRun else .completed)
    else none
  | .shutdown =>
    if cancelled then
      if fill > 0 then some (fill - 1, .notStarted) else none
    else none

/-- Number of registry bindings under one key. A Go map holds at most
one binding per key; the model makes that countable. -/
def countKey (rs : Routes) (k : String) : Nat :=
  (rs.filter (fun kv => kv.1 == k)).length

/-- Last route of the list whose Path and lowercased Method match the
given pair: the binding whose document entry survives the ServeOpenAPI
pass, since every later write to one cell of the nested map overwrites
the earlier one. -/
def lastWriter : Routes → String → String → Option RouteInfo
  | [], _, _ => none
  | kv :: rest, p, m =>
    match lastWriter rest p m with
    | some r => some r
    | none =>
      if kv.2.Path = p ∧ goToLower kv.2.Method = m then some kv.2 else none

/-- Shape invariant of any registry reachable through RegisterRoute:
every binding sits under the key formed from its own Path and Method
fields. -/
abbrev WFRouteKeys (rs : Routes) : Prop :=
  ∀ kv ∈ rs, kv.1 = kv.2.Path ++ kv.2.Method

/-- No two routes of one path have methods that collide after
lowercasing. Reachable registries satisfy this for ASCII methods, since
stored methods are uppercased at registration. -/
abbrev CaseDistinct (rs : Routes) : Prop :=
  ∀ kv1 ∈ rs, ∀ kv2 ∈ rs,
    kv1.2.Path = kv2.2.Path → goToLower kv1.2.Method = goToLower kv2.2.Method →
      kv1.2.Method = kv2.2.Method

/-- The concrete scenario registry of the specification: one route,
GET /hello answering Hi there. -/
def rsHello : Routes :=
  RegisterRoute [] (some "/hello") (some "GET") (some "Hi there") (some "greets the caller")

/-- A three-route registry used to instantiate the OpenAPI theorems:
two methods on /hello and one on /bye. -/
def rsDocs : Routes :=
  RegisterRoute
    (RegisterRoute rsHello (some "/hello") (some "post") (some "posted") (some "accepts a post"))
    (some "/bye") (some "GET") (some "Bye") (some "says goodbye")

/-- A registry holding a route registered under the reserved path
/openapi.json, which the mux never forwards to the dynamic handler. -/
def rsOpen : Routes :=
  RegisterRoute [] (some "/openapi.json") (some "GET") (some "docs") (some "d")

/-- A registry holding a route registered under a path inside the
reserved /swagger/ subtree. -/
def rsSw : Routes :=
  RegisterRoute [] (some "/swagger/x") (some "GET") (some "m") (some "d")

/-- A mixed registry on path /p: an empty-method route (RegisterRoute
accepts it, its key being the bare path) registered ahead of a GET
route. The 404 hint scan stops at the first same-path route, whose
empty stored method suppresses the hint. -/
def rsMixed : Routes :=
  RegisterRoute (RegisterRoute [] (some "/p") (some "") (some "m0") (some "d0"))
    (some "/p") (some "GET") (some "mg") (some "dg")

/-! Helper lemmas on the registry association list. -/

theorem routesLookup_insert_self (rs : Routes) (k : String) (v : RouteInfo) :
    routesLookup (routesInsert rs k v) k = some v := by
  induction rs with
  | nil => simp [routesInsert, routesLookup]
  | cons kv rest ih =>
    by_cases h : kv.1 = k
    · simp [routesInsert, h, routesLookup]
    · simp [routesInsert, h, routesLookup, ih]

theorem routesLookup_eq_none_iff (rs : Routes) (k : String) :
    routesLookup rs k = none ↔ ∀ kv ∈ rs, kv.1 ≠ k := by
  induction rs with
  | nil => simp [routesLookup]
  | cons kv rest ih =>
    by_cases h : kv.1 = k
    · simp [routesLookup, h]
    · simp [routesLookup, h, ih]

theorem keys_routesInsert_mem (rs : Routes) (k : String) (v : RouteInfo) (x : String) :
    x ∈ (routesInsert rs k v).map Prod.fst ↔ x = k ∨ x ∈ rs.map Prod.fst := by
  induction rs with
  | nil => simp [routesInsert]
  | cons kv rest ih =>
    by_cases h : kv.1 = k
    · subst h
      simp [routesInsert]
    · simp only [routesInsert, if_neg h, List.map_cons, List.mem_cons, ih]
      tauto

theorem keys_routesInsert_nodup (rs : Routes) (k : String) (v : RouteInfo)
    (h : (rs.map Prod.fst).Nodup) : ((routesInsert rs k v).map Prod.fst).Nodup := by
  induction rs with
  | nil => simp [routesInsert]
  | cons kv rest ih =>
    rw [List.map_cons, List.nodup_cons] at h
    by_cases hk : kv.1 = k
    · subst hk
      simpa [routesInsert] using h
    · rw [routesInsert, if_neg hk, List.map_cons, List.nodup_cons]
      refine ⟨fun hmem => ?_, ih h.2⟩
      rcases (keys_routesInsert_mem rest k v kv.1).mp hmem with h1 | h1
      · exact hk h1
      · exact h.1 h1

theorem countKey_eq_zero (rs : Routes) (k : String) (h : k ∉ rs.map Prod.fst) :
    countKey rs k = 0 := by
  induction rs with
  | nil => rfl
  | cons kv rest ih =>
    rw [List.map_cons, List.mem_cons] at h
    push_neg at h
    have hne : ¬ (kv.1 == k) = true := by
      simp only [beq_iff_eq]
      exact fun e => h.1 e.symm
    simp only [countKey, List.filter_cons, if_neg hne]
    exact ih h.2

theorem countKey_insert (rs : Routes) (k : String) (v : RouteInfo)
    (h : (rs.map Prod.fst).Nodup) : countKey (routesInsert rs k v) k = 1 := by
  induction rs with
  | nil => simp [routesInsert, countKey]
  | cons kv rest ih =>
    rw [List.map_cons, List.nodup_cons] at h
    by_cases hk : kv.1 = k
    · subst hk
      have h0 : countKey rest kv.1 = 0 := countKey_eq_zero rest kv.1 h.1
      simp only [routesInsert, if_pos rfl, countKey, List.filter_cons, beq_self_eq_true,
        if_pos, List.length_cons]
      simpa [countKey] using h0
    · have hne : ¬ (kv.1 == k) = true := by simp only [beq_iff_eq]; exact hk
      simp only [routesInsert, if_neg hk, countKey, List.filter_cons, if_neg hne]
      exact ih h.2

theorem findSupportedMethod_eq_empty (rs : Routes) (path : String)
    (h : ∀ kv ∈ rs, kv.2.Path ≠ path) : findSupportedMethod rs path = "" := by
  induction rs with
  | nil => rfl
  | cons kv rest ih =>
    have hk : kv.2.Path ≠ path := h kv (List.mem_cons_self kv rest)
    rw [findSupportedMethod, if_neg hk]
    exact ih fun kv' hm => h kv' (List.mem_cons_of_mem kv hm)

theorem findSupportedMethod_mem (rs : Routes) (path : String)
    (h : ∃ kv ∈ rs, kv.2.Path = path) :
    ∃ kv ∈ rs, kv.2.Path = path ∧ findSupportedMethod rs path = kv.2.Method := by
  induction rs with
  | nil => simp at h
  | cons kv rest ih =>
    by_cases hp : kv.2.Path = path
    · exact ⟨kv, List.mem_cons_self kv rest, hp, by rw [findSupportedMethod, if_pos hp]⟩
    · obtain ⟨kv', hmem, hp'⟩ := h
      rcases List.mem_cons.mp hmem with rfl | hmem'
      · exact absurd hp' hp
      · obtain ⟨kv'', hm, hp'', he⟩ := ih ⟨kv', hmem', hp'⟩
        exact ⟨kv'', List.mem_cons_of_mem kv hm, hp'',
          by rw [findSupportedMethod, if_neg hp]; exact he⟩

/-! Claim theorems. -/

/-- C1 (counterexample): the claim quantifies over every registered
route, but a route registered under the reserved path /openapi.json is
shadowed by the OpenAPI endpoint: the registered key is present in the
registry, yet dispatching it does not yield the success envelope the
claim promises. -/
theorem C1_reserved_path_counterexample :
    routesLookup rsOpen ("/openapi.json" ++ "GET") =
      some { Path := "/openapi.json", Method := "GET", Message := "docs", Description := "d",
             Parameters := [], Responses := [(200, "Successful response")] } ∧
    serverHandle rsOpen "/openapi.json" "GET" 7 ≠
      HttpResponse.success (mkEnvelope "docs" 7) := by
  exact ⟨by decide, by decide⟩

/-- C1 (amended): for every registered route whose path is not
/openapi.json and does not begin with /swagger/, a request whose path
and method form that exact registered key receives status 200 and the
success envelope carrying the route message and the background task
stanza with identifier task- followed by the nanosecond timestamp. -/
theorem C1_dispatch_success_amended (rs : Routes) (path method : String) (route : RouteInfo)
    (ts : Int)
    (hop : path ≠ "/openapi.json")
    (hsw : goHasPrefix "/swagger/" path = false)
    (hreg : routesLookup rs (path ++ method) = some route) :
    serverHandle rs path method ts = HttpResponse.success (mkEnvelope route.Message ts) ∧
    statusOf (serverHandle rs path method ts) = 200 := by
  have hsh : serverHandle rs path method ts = HttpResponse.success (mkEnvelope route.Message ts) := by
    rw [serverHandle, if_neg hop, hsw]
    simp only [Bool.false_eq_true, if_false, dynamicHandler, dispatchKey, hreg]
  exact ⟨hsh, by rw [hsh]; rfl⟩

/-- C1 (witness): the concrete scenario of the specification, GET /hello
against the registry holding the Hi there route. -/
theorem C1_dispatch_success_witness :
    serverHandle rsHello "/hello" "GET" 42 = HttpResponse.success (mkEnvelope "Hi there" 42) :=
  (C1_dispatch_success_amended rsHello "/hello" "GET"
      { Path := "/hello", Method := "GET", Message := "Hi there",
        Description := "greets the caller", Parameters := [],
        Responses := [(200, "Successful response")] } 42
      (by decide) (by decide) (by decide)).1

/-- C2 (code bug): the fixed pool buffer capacity is 10, yet eleven
concurrent dispatches put eleven tasks into the running state at once.
The source never calls taskPool.Put, so the pool stays empty and every
taskPool.Get allocates a fresh capacity-10 channel of its own: the
buffered send of each TaskManager succeeds on its private channel and no
global bound of 10 exists. -/
theorem C2_pool_bound_violation :
    poolCap = 10 ∧
    runningTasks (runDispatches (poolCap + 1)) = poolCap + 1 ∧
    poolCap < runningTasks (runDispatches (poolCap + 1)) ∧
    (runDispatches (poolCap + 1)).pool = [] := by
  exact ⟨by decide, by decide, by decide, by decide⟩

/-- C3 (code bug): the deferred receive registered at line 176 runs on
every exit path of TaskManager, including the not-started-due-to-shutdown
path, where no slot was ever acquired. On an empty channel the runner
then blocks forever instead of returning (result none); on a channel
holding a token of another task, it consumes that token (fill drops from
1 to 0). The acquire paths, by contrast, do balance: one send, one
deferred receive, final fill equal to the initial fill. -/
theorem C3_taskmanager_release_violation :
    TaskManagerRun true false 0 TMBranch.shutdown = none ∧
    TaskManagerRun true false 1 TMBranch.shutdown = some (0, TMOutcome.notStarted) ∧
    TaskManagerRun false false 0 TMBranch.acquire = some (0, TMOutcome.completed) ∧
    TaskManagerRun true true 0 TMBranch.acquire = some (0, TMOutcome.cancelledMidRun) := by
  exact ⟨by decide, by decide, by decide, by decide⟩

/-- C4 (counterexample): the dispatcher key is the path concatenated with
the request method exactly as sent, not uppercased: against the registry
holding GET /hello, a request with method get (lowercase) builds key
/helloget, misses the registered key /helloGET, and receives 404 instead
of the match the claim promises. -/
theorem C4_case_sensitivity_counterexample :
    dispatchKey "/hello" "get" ≠ "/hello" ++ goToUpper "get" ∧
    statusOf (dynamicHandler rsHello "/hello" "get" 0) = 404 ∧
    dynamicHandler rsHello "/hello" "get" 0 =
      HttpResponse.notFound "Route not found for get /hello - Try using method GET" := by
  exact ⟨by decide, by decide, by decide⟩

/-- C4 (amended): the dispatcher computes the registry lookup key as the
path concatenated with the request method as sent, with no case
normalization; since registration stores the method uppercased, a
request matches only when its method is exactly the uppercased form, and
a lookup miss yields 404. -/
theorem C4_dispatch_key_amended (rs : Routes) (path method : String) (ts : Int) :
    dispatchKey path method = path ++ method ∧
    (∀ route, routesLookup rs (path ++ method) = some route →
      dynamicHandler rs path method ts = HttpResponse.success (mkEnvelope route.Message ts)) ∧
    (routesLookup rs (path ++ method) = none →
      statusOf (dynamicHandler rs path method ts) = 404) := by
  refine ⟨rfl, fun route h => ?_, fun h => ?_⟩
  · rw [dynamicHandler, dispatchKey, h]
  · rw [dynamicHandler, dispatchKey, h]
    rfl

/-- C4 (witness): an uppercase request method hits the registered key of
the concrete scenario route. -/
theorem C4_dispatch_key_witness :
    dynamicHandler rsHello "/hello" "GET" 5 = HttpResponse.success (mkEnvelope "Hi there" 5) :=
  (C4_dispatch_key_amended rsHello "/hello" "GET" 5).2.1
    { Path := "/hello", Method := "GET", Message := "Hi there",
      Description := "greets the caller", Parameters := [],
      Responses := [(200, "Successful response")] } (by decide)

/-- C9 (counterexample): RegisterRoute checks only for nil pointers, not
for empty strings: a registration whose path is the empty string is
accepted and stored under key GET, so the registry does not stay
unchanged as the claim requires. -/
theorem C9_empty_input_counterexample :
    RegisterRoute [] (some "") (some "get") (some "m") (some "d") =
      [("GET", { Path := "", Method := "GET", Message := "m", Description := "d",
                 Parameters := [], Responses := [(200, "Successful response")] })] ∧
    RegisterRoute [] (some "") (some "get") (some "m") (some "d") ≠ [] := by
  exact ⟨by decide, by decide⟩

/-- C9 (amended): a RegisterRoute call with any nil input logs a
diagnostic and leaves the registry unchanged, and no error reaches any
client (the call returns nothing); when all four inputs are non-nil,
including when some are empty strings, the route is stored under the key
formed from the path and the uppercased method. -/
theorem C9_nil_rejection_amended (rs : Routes) (p m msg d : Option String) :
    ((p = none ∨ m = none ∨ msg = none ∨ d = none) → RegisterRoute rs p m msg d = rs) ∧
    (∀ ps ms msgs ds, p = some ps → m = some ms → msg = some msgs → d = some ds →
      RegisterRoute rs p m msg d =
        routesInsert rs (ps ++ goToUpper ms)
          { Path := ps, Method := goToUpper ms, Message := msgs, Description := ds,
            Parameters := [], Responses := [(200, "Successful response")] }) := by
  constructor
  · intro h
    rcases p with _ | ps
    · cases m <;> cases msg <;> cases d <;> rfl
    · rcases m with _ | ms
      · cases msg <;> cases d <;> rfl
      · rcases msg with _ | msgs
        · cases d <;> rfl
        · rcases d with _ | ds
          · rfl
          · simp at h
  · intro ps ms msgs ds hp hm hmsg hd
    subst hp; subst hm; subst hmsg; subst hd
    rfl

/-- C9 (witness): a nil path pointer leaves the empty registry empty. -/
theorem C9_nil_rejection_witness :
    RegisterRoute [] none (some "GET") (some "m") (some "d") = [] :=
  (C9_nil_rejection_amended [] none (some "GET") (some "m") (some "d")).1 (Or.inl rfl)

/-- C10: requests for the path /openapi.json, and for any path beginning
with /swagger/, are never handled by the dynamic dispatcher: whatever
the registry holds, the response is the OpenAPI document or a static
file, never the success envelope of a registered route. -/
theorem C10_reserved_paths (rs : Routes) (path method : String) (ts : Int) (body : ApiResponse)
    (h : path = "/openapi.json" ∨ goHasPrefix "/swagger/" path = true) :
    serverHandle rs path method ts ≠ HttpResponse.success body ∧
    (path = "/openapi.json" → serverHandle rs path method ts = HttpResponse.openapiDoc (ServeOpenAPI rs)) ∧
    (goHasPrefix "/swagger/" path = true → serverHandle rs path method ts = HttpResponse.swaggerStatic) := by
  have hsw : goHasPrefix "/swagger/" path = true → path ≠ "/openapi.json" := by
    intro hpre he
    rw [he] at hpre
    exact absurd hpre (by decide)
  refine ⟨?_, fun hop => by rw [serverHandle, if_pos hop], fun hpre => ?_⟩
  · rcases h with hop | hpre
    · rw [serverHandle, if_pos hop]
      exact fun he => HttpResponse.noConfusion he
    · rw [serverHandle, if_neg (hsw hpre), hpre]
      simp only [if_true]
      exact fun he => HttpResponse.noConfusion he
  · rw [serverHandle, if_neg (hsw hpre), hpre]
    simp only [if_true]

/-- C10 (witness): a route registered at /swagger/x is shadowed by the
static file server. -/
theorem C10_reserved_paths_witness :
    serverHandle rsSw "/swagger/x" "GET" 3 = HttpResponse.swaggerStatic :=
  (C10_reserved_paths rsSw "/swagger/x" "GET" 3 (mkEnvelope "m" 3)
    (Or.inr (by decide))).2.2 (by decide)

theorem RegisterRoute_some (rs : Routes) (p m msg d : String) :
    RegisterRoute rs (some p) (some m) (some msg) (some d) =
      routesInsert rs (p ++ goToUpper m)
        { Path := p, Method := goToUpper m, Message := msg, Description := d,
          Parameters := [], Responses := [(200, "Successful response")] } := rfl

/-- C5 (counterexample): the claim fails at two concrete inputs. First,
a request for the reserved path /openapi.json with an unregistered
(path, method) pair is answered by the OpenAPI endpoint with status 200,
not the promised 404. Second, against the mixed registry rsMixed a
request POST /p receives a 404 body with no method hint, although a
route for the same path under the different non-empty method GET is
registered: the scan stops at the first same-path route, and its empty
stored method suppresses the hint, so the body does not name any such
method as the claim requires. -/
theorem C5_original_claim_counterexample :
    (routesLookup ([] : Routes) ("/openapi.json" ++ "GET") = none ∧
      statusOf (serverHandle [] "/openapi.json" "GET" 0) = 200 ∧
      statusOf (serverHandle [] "/openapi.json" "GET" 0) ≠ 404) ∧
    (routesLookup rsMixed ("/p" ++ "POST") = none ∧
      ("/pGET",
        { Path := "/p", Method := "GET", Message := "mg", Description := "dg",
          Parameters := [], Responses := [(200, "Successful response")] }) ∈ rsMixed ∧
      ("GET" : String) ≠ "POST" ∧
      serverHandle rsMixed "/p" "POST" 0 =
        HttpResponse.notFound "Route not found for POST /p") := by
  exact ⟨⟨by decide, by decide, by decide⟩, by decide, by decide, by decide, by decide⟩

/-- C5 (amended): for every request whose path is not /openapi.json and
does not begin with /swagger/ and whose (path, method) pair is not
registered, the response status is 404; when no route exists for the
path the body names the attempted method and path with no hint; when
some route is registered for the same path (its stored method being
non-empty, as every real method is), the body appends a hint naming one
such method, necessarily different from the attempted one. -/
theorem C5_not_found_amended (rs : Routes) (path method : String) (ts : Int)
    (hop : path ≠ "/openapi.json")
    (hsw : goHasPrefix "/swagger/" path = false)
    (hkeys : WFRouteKeys rs)
    (hmiss : routesLookup rs (dispatchKey path method) = none) :
    statusOf (serverHandle rs path method ts) = 404 ∧
    ((∀ kv ∈ rs, kv.2.Path ≠ path) →
      serverHandle rs path method ts =
        HttpResponse.notFound ("Route not found for " ++ method ++ " " ++ path)) ∧
    ((∃ kv ∈ rs, kv.2.Path = path) → (∀ kv ∈ rs, kv.2.Path = path → kv.2.Method ≠ "") →
      ∃ m, m ≠ "" ∧ m ≠ method ∧ (∃ kv ∈ rs, kv.2.Path = path ∧ kv.2.Method = m) ∧
        serverHandle rs path method ts =
          HttpResponse.notFound
            ("Route not found for " ++ method ++ " " ++ path ++ " - Try using method " ++ m)) := by
  rw [dispatchKey] at hmiss
  have hsh : serverHandle rs path method ts = dynamicHandler rs path method ts := by
    rw [serverHandle, if_neg hop, hsw]
    simp only [Bool.false_eq_true, if_false]
  have hdm : dynamicHandler rs path method ts =
      HttpResponse.notFound
        (if findSupportedMethod rs path ≠ "" then
          "Route not found for " ++ method ++ " " ++ path ++ " - Try using method " ++
            findSupportedMethod rs path
        else "Route not found for " ++ method ++ " " ++ path) := by
    rw [dynamicHandler, dispatchKey, hmiss]
  refine ⟨?_, ?_, ?_⟩
  · rw [hsh, hdm]
    rfl
  · intro h
    rw [hsh, hdm, findSupportedMethod_eq_empty rs path h]
    simp
  · intro hex hne
    obtain ⟨kv0, hmem, hp0, hfsm⟩ := findSupportedMethod_mem rs path hex
    refine ⟨kv0.2.Method, hne kv0 hmem hp0, ?_, ⟨kv0, hmem, hp0, rfl⟩, ?_⟩
    · intro he
      have hk : kv0.1 = path ++ method := by rw [hkeys kv0 hmem, hp0, he]
      exact (routesLookup_eq_none_iff rs (path ++ method)).mp hmiss kv0 hmem hk
    · have hMne : findSupportedMethod rs path ≠ "" := by
        rw [hfsm]
        exact hne kv0 hmem hp0
      rw [hsh, hdm, if_pos hMne, hfsm]

/-- C5 (witness): the concrete scenario of the specification, POST /hello
against the registry holding only GET /hello. -/
theorem C5_not_found_witness :
    ∃ m, m ≠ "" ∧ m ≠ "POST" ∧ (∃ kv ∈ rsHello, kv.2.Path = "/hello" ∧ kv.2.Method = m) ∧
      serverHandle rsHello "/hello" "POST" 0 =
        HttpResponse.notFound
          ("Route not found for " ++ "POST" ++ " " ++ "/hello" ++ " - Try using method " ++ m) :=
  (C5_not_found_amended rsHello "/hello" "POST" 0 (by decide) (by decide) (by decide)
      (by decide)).2.2
    ⟨("/helloGET",
      { Path := "/hello", Method := "GET", Message := "Hi there",
        Description := "greets the caller", Parameters := [],
        Responses := [(200, "Successful response")] }), by decide, by decide⟩
    (by decide)

/-- C6: registering the same (path, method) key twice leaves exactly one
registry binding for that key, carrying the message, description and
metadata of the second registration, and a subsequent dispatch of that
key serves the message of the second registration. -/
theorem C6_last_write_wins (rs : Routes) (path m1 m2 msg1 d1 msg2 d2 : String) (ts : Int)
    (hnodup : (rs.map Prod.fst).Nodup) (hm : goToUpper m1 = goToUpper m2) :
    routesLookup
        (RegisterRoute (RegisterRoute rs (some path) (some m1) (some msg1) (some d1))
          (some path) (some m2) (some msg2) (some d2)) (path ++ goToUpper m2) =
      some { Path := path, Method := goToUpper m2, Message := msg2, Description := d2,
             Parameters := [], Responses := [(200, "Successful response")] } ∧
    countKey
        (RegisterRoute (RegisterRoute rs (some path) (some m1) (some msg1) (some d1))
          (some path) (some m2) (some msg2) (some d2)) (path ++ goToUpper m2) = 1 ∧
    dynamicHandler
        (RegisterRoute (RegisterRoute rs (some path) (some m1) (some msg1) (some d1))
          (some path) (some m2) (some msg2) (some d2)) path (goToUpper m2) ts =
      HttpResponse.success (mkEnvelope msg2 ts) := by
  rw [RegisterRoute_some, RegisterRoute_some, hm]
  refine ⟨routesLookup_insert_self _ _ _, ?_, ?_⟩
  · exact countKey_insert _ _ _ (keys_routesInsert_nodup rs _ _ hnodup)
  · rw [dynamicHandler, dispatchKey, routesLookup_insert_self]

/-- C6 (witness): registering /a with methods get then GET serves the
second message two. -/
theorem C6_last_write_wins_witness :
    dynamicHandler
        (RegisterRoute (RegisterRoute [] (some "/a") (some "get") (some "one") (some "d1"))
          (some "/a") (some "GET") (some "two") (some "d2")) "/a" (goToUpper "GET") 9 =
      HttpResponse.success (mkEnvelope "two" 9) :=
  (C6_last_write_wins [] "/a" "get" "GET" "one" "d1" "two" "d2" 9 (by decide) (by decide)).2.2

theorem buildLoop_eq_foldr_take {H : Type} (ws : List (H → H)) :
    ∀ n, n ≤ ws.length → ∀ h : H,
      buildLoop ws n h = (ws.take n).foldr (fun w acc => w acc) h := by
  intro n
  induction n with
  | zero => intro _ h; rfl
  | succ n ih =>
    intro hle h
    have hn : n < ws.length := hle
    rw [buildLoop, ih (le_of_lt hn), List.take_succ, List.foldr_append,
      List.getElem?_eq_getElem hn]
    have hg : ws.getD n id = ws[n] := by
      rw [List.getD_eq_getElem?_getD, List.getElem?_eq_getElem hn]
      rfl
    rw [hg]
    rfl

/-- C7: the handler installed at server start equals the functional
composition wrappers[0] (wrappers[1] (... (terminal))) of the middleware
sequence as it stands at start, the first registered middleware being
outermost; and the chain is frozen at start: a middleware registration
performed after the build leaves the installed chain unchanged. -/
theorem C7_middleware_chain {H : Type} (impl : MW → H → H) (terminal : H)
    (s : MwState) (cName : Option String) (cEnabled : Int) :
    installedChain (startServerMw s) impl terminal =
      (s.middlewares.map impl).foldr (fun w h => w h) terminal ∧
    installedChain (RegisterMiddleware (startServerMw s) cName cEnabled) impl terminal =
      installedChain (startServerMw s) impl terminal := by
  constructor
  · show buildChain (s.middlewares.map impl) terminal = _
    rw [buildChain, buildLoop_eq_foldr_take _ _ (le_refl _), List.take_length]
  · have hsame : (RegisterMiddleware (startServerMw s) cName cEnabled).installed =
        (startServerMw s).installed := by
      rcases cName with _ | name
      · rfl
      · by_cases he : cEnabled = 0
        · rw [RegisterMiddleware, if_pos he]
        · by_cases hn : name = "logging"
          · rw [RegisterMiddleware, if_neg he, if_pos hn]
          · rw [RegisterMiddleware, if_neg he, if_neg hn]
    unfold installedChain
    rw [hsame]

/-! Helper lemmas on the nested paths object built by ServeOpenAPI. -/

theorem innerLookup_innerInsert (inner : List (String × PathEntry)) (m m' : String)
    (e : PathEntry) :
    innerLookup (innerInsert inner m e) m' = if m = m' then some e else innerLookup inner m' := by
  induction inner with
  | nil => rfl
  | cons me rest ih =>
    by_cases hm : me.1 = m
    · rw [innerInsert, if_pos hm]
      by_cases h' : m = m'
      · rw [innerLookup, if_pos h', if_pos h']
      · rw [innerLookup, if_neg h', if_neg h', innerLookup, if_neg (by rw [hm]; exact h')]
    · rw [innerInsert, if_neg hm]
      by_cases h' : me.1 = m'
      · have hq : ¬ m = m' := fun he => hm (h'.trans he.symm)
        rw [innerLookup, if_pos h', if_neg hq, innerLookup, if_pos h']
      · rw [innerLookup, if_neg h', ih]
        by_cases hq : m = m'
        · rw [if_pos hq, if_pos hq]
        · rw [if_neg hq, if_neg hq, innerLookup, if_neg h']

theorem docLookup_pathsInsert (doc : PathsDoc) (p m : String) (e : PathEntry) (p' m' : String) :
    docLookup (pathsInsert doc p m e) p' m' =
      if p = p' ∧ m = m' then some e else docLookup doc p' m' := by
  induction doc with
  | nil =>
    by_cases hp : p = p'
    · by_cases hm : m = m' <;> simp [pathsInsert, docLookup, innerLookup, hp, hm]
    · simp [pathsInsert, docLookup, hp]
  | cons pe rest ih =>
    by_cases hpe : pe.1 = p
    · by_cases hp : p = p'
      · by_cases hm : m = m' <;>
          simp [pathsInsert, docLookup, hpe, hp, hm, innerLookup_innerInsert, hpe.trans hp]
      · have hne : pe.1 ≠ p' := by rw [hpe]; exact hp
        simp [pathsInsert, docLookup, hpe, hp, hne]
    · by_cases hp' : pe.1 = p'
      · have hq : ¬ (p = p' ∧ m = m') := fun he => hpe (hp'.trans he.1.symm)
        have hq2 : ¬ p' = p := fun he => hpe (hp'.trans he)
        simp [pathsInsert, docLookup, hpe, hp', hq, hq2]
      · simp [pathsInsert, docLookup, hpe, hp', ih]

theorem docLookup_serve_foldl (rs : Routes) :
    ∀ (acc : PathsDoc) (p m : String),
      docLookup (rs.foldl (fun doc kv =>
          pathsInsert doc kv.2.Path (goToLower kv.2.Method) (mkDocEntry kv.2)) acc) p m =
        match lastWriter rs p m with
        | some r => some (mkDocEntry r)
        | none => docLookup acc p m := by
  induction rs with
  | nil => intro acc p m; rfl
  | cons kv rest ih =>
    intro acc p m
    rw [List.foldl_cons, ih]
    cases hlw : lastWriter rest p m with
    | some r => rw [lastWriter, hlw]
    | none =>
      rw [lastWriter, hlw, docLookup_pathsInsert]
      by_cases hc : kv.2.Path = p ∧ goToLower kv.2.Method = m
      · rw [if_pos hc, if_pos hc]
      · rw [if_neg hc, if_neg hc]

theorem lastWriter_eq_none_iff (rs : Routes) (p m : String) :
    lastWriter rs p m = none ↔
      ∀ kv ∈ rs, ¬(kv.2.Path = p ∧ goToLower kv.2.Method = m) := by
  induction rs with
  | nil => simp [lastWriter]
  | cons kv rest ih =>
    rw [lastWriter]
    cases hlw : lastWriter rest p m with
    | some r =>
      constructor
      · intro h; exact Option.noConfusion h
      · intro h
        have h0 := ih.mpr fun kv' hm => h kv' (List.mem_cons_of_mem kv hm)
        exact Option.noConfusion (h0.symm.trans hlw)
    | none =>
      by_cases hc : kv.2.Path = p ∧ goToLower kv.2.Method = m
      · rw [if_pos hc]
        constructor
        · intro h; exact Option.noConfusion h
        · intro h; exact absurd hc (h kv (List.mem_cons_self kv rest))
      · rw [if_neg hc]
        constructor
        · intro _ kv' hm'
          rcases List.mem_cons.mp hm' with rfl | hm''
          · exact hc
          · exact (ih.mp hlw) kv' hm''
        · intro _; rfl

theorem lastWriter_mem (rs : Routes) (p m : String) (r : RouteInfo)
    (h : lastWriter rs p m = some r) :
    ∃ kv ∈ rs, kv.2 = r ∧ kv.2.Path = p ∧ goToLower kv.2.Method = m := by
  induction rs with
  | nil => exact Option.noConfusion h
  | cons kv rest ih =>
    rw [lastWriter] at h
    cases hlw : lastWriter rest p m with
    | some r' =>
      rw [hlw] at h
      have hr : r' = r := Option.some.inj h
      obtain ⟨kv', hm', h1, h2, h3⟩ := ih (by rw [hlw, hr])
      exact ⟨kv', List.mem_cons_of_mem kv hm', h1, h2, h3⟩
    | none =>
      rw [hlw] at h
      by_cases hc : kv.2.Path = p ∧ goToLower kv.2.Method = m
      · rw [if_pos hc] at h
        exact ⟨kv, List.mem_cons_self kv rest, Option.some.inj h, hc.1, hc.2⟩
      · rw [if_neg hc] at h
        exact Option.noConfusion h

theorem mem_eq_of_nodup_keys (rs : Routes) (h : (rs.map Prod.fst).Nodup) :
    ∀ kv1 ∈ rs, ∀ kv2 ∈ rs, kv1.1 = kv2.1 → kv1 = kv2 := by
  induction rs with
  | nil => intro kv1 h1; exact absurd h1 (List.not_mem_nil kv1)
  | cons kv rest ih =>
    rw [List.map_cons, List.nodup_cons] at h
    intro kv1 h1 kv2 h2 hk
    rcases List.mem_cons.mp h1 with rfl | h1' <;> rcases List.mem_cons.mp h2 with rfl | h2'
    · rfl
    · have hmem : kv1.1 ∈ rest.map Prod.fst := by
        rw [hk]
        exact List.mem_map_of_mem Prod.fst h2'
      exact absurd hmem h.1
    · have hmem : kv2.1 ∈ rest.map Prod.fst := by
        rw [← hk]
        exact List.mem_map_of_mem Prod.fst h1'
      exact absurd hmem h.1
    · exact ih h.2 kv1 h1' kv2 h2' hk

theorem route_mem_unique (rs : Routes) (hkeys : WFRouteKeys rs)
    (hnodup : (rs.map Prod.fst).Nodup) (hcd : CaseDistinct rs)
    (kv1 : String × RouteInfo) (h1 : kv1 ∈ rs) (kv2 : String × RouteInfo) (h2 : kv2 ∈ rs)
    (hp : kv1.2.Path = kv2.2.Path) (hm : goToLower kv1.2.Method = goToLower kv2.2.Method) :
    kv1 = kv2 := by
  have hmeq := hcd kv1 h1 kv2 h2 hp hm
  have hk : kv1.1 = kv2.1 := by rw [hkeys kv1 h1, hkeys kv2 h2, hp, hmeq]
  exact mem_eq_of_nodup_keys rs hnodup kv1 h1 kv2 h2 hk

theorem docHasPath_pathsInsert (doc : PathsDoc) (p m : String) (e : PathEntry) (p' : String) :
    docHasPath (pathsInsert doc p m e) p' = (p == p' || docHasPath doc p') := by
  induction doc with
  | nil => simp [pathsInsert, docHasPath]
  | cons pe rest ih =>
    by_cases hpe : pe.1 = p
    · simp [pathsInsert, docHasPath, hpe]
    · simp [pathsInsert, docHasPath, hpe, ih, Bool.or_left_comm]

theorem docHasPath_serve_foldl (rs : Routes) :
    ∀ (acc : PathsDoc) (p : String),
      docHasPath (rs.foldl (fun doc kv =>
          pathsInsert doc kv.2.Path (goToLower kv.2.Method) (mkDocEntry kv.2)) acc) p =
        (rs.any (fun kv => kv.2.Path == p) || docHasPath acc p) := by
  induction rs with
  | nil => intro acc p; simp
  | cons kv rest ih =>
    intro acc p
    rw [List.foldl_cons, ih, List.any_cons, docHasPath_pathsInsert]
    simp [Bool.or_comm, Bool.or_left_comm, Bool.or_assoc]

theorem keys_innerInsert_mem (inner : List (String × PathEntry)) (m : String) (e : PathEntry)
    (x : String) :
    x ∈ (innerInsert inner m e).map Prod.fst ↔ x = m ∨ x ∈ inner.map Prod.fst := by
  induction inner with
  | nil => simp [innerInsert]
  | cons me rest ih =>
    by_cases h : me.1 = m
    · subst h
      simp [innerInsert]
    · simp only [innerInsert, if_neg h, List.map_cons, List.mem_cons, ih]
      tauto

theorem keys_innerInsert_nodup (inner : List (String × PathEntry)) (m : String) (e : PathEntry)
    (h : (inner.map Prod.fst).Nodup) : ((innerInsert inner m e).map Prod.fst).Nodup := by
  induction inner with
  | nil => simp [innerInsert]
  | cons me rest ih =>
    rw [List.map_cons, List.nodup_cons] at h
    by_cases hm : me.1 = m
    · subst hm
      simpa [innerInsert] using h
    · rw [innerInsert, if_neg hm, List.map_cons, List.nodup_cons]
      refine ⟨fun hmem => ?_, ih h.2⟩
      rcases (keys_innerInsert_mem rest m e me.1).mp hmem with h1 | h1
      · exact hm h1
      · exact h.1 h1

theorem keys_pathsInsert_mem (doc : PathsDoc) (p m : String) (e : PathEntry) (x : String) :
    x ∈ (pathsInsert doc p m e).map Prod.fst ↔ x = p ∨ x ∈ doc.map Prod.fst := by
  induction doc with
  | nil => simp [pathsInsert]
  | cons pe rest ih =>
    by_cases h : pe.1 = p
    · subst h
      simp [pathsInsert]
    · simp only [pathsInsert, if_neg h, List.map_cons, List.mem_cons, ih]
      tauto

theorem keys_pathsInsert_nodup (doc : PathsDoc) (p m : String) (e : PathEntry)
    (h : (doc.map Prod.fst).Nodup) : ((pathsInsert doc p m e).map Prod.fst).Nodup := by
  induction doc with
  | nil => simp [pathsInsert]
  | cons pe rest ih =>
    rw [List.map_cons, List.nodup_cons] at h
    by_cases hp : pe.1 = p
    · subst hp
      simpa [pathsInsert] using h
    · rw [pathsInsert, if_neg hp, List.map_cons, List.nodup_cons]
      refine ⟨fun hmem => ?_, ih h.2⟩
      rcases (keys_pathsInsert_mem rest p m e pe.1).mp hmem with h1 | h1
      · exact hp h1
      · exact h.1 h1

theorem inner_nodup_pathsInsert (doc : PathsDoc) (p m : String) (e : PathEntry)
    (h : ∀ pe ∈ doc, (pe.2.map Prod.fst).Nodup) :
    ∀ pe ∈ pathsInsert doc p m e, (pe.2.map Prod.fst).Nodup := by
  induction doc with
  | nil =>
    intro pe hm'
    rw [pathsInsert] at hm'
    rcases List.mem_cons.mp hm' with rfl | hm''
    · simp
    · exact absurd hm'' (List.not_mem_nil pe)
  | cons pe' rest ih =>
    intro pe hm'
    by_cases hp : pe'.1 = p
    · rw [pathsInsert, if_pos hp] at hm'
      rcases List.mem_cons.mp hm' with rfl | hm''
      · exact keys_innerInsert_nodup pe'.2 m e (h pe' (List.mem_cons_self pe' rest))
      · exact h pe (List.mem_cons_of_mem pe' hm'')
    · rw [pathsInsert, if_neg hp] at hm'
      rcases List.mem_cons.mp hm' with rfl | hm''
      · exact h pe (List.mem_cons_self pe rest)
      · exact ih (fun q hq => h q (List.mem_cons_of_mem pe' hq)) pe hm''

theorem serve_foldl_wf (rs : Routes) :
    ∀ (acc : PathsDoc), (acc.map Prod.fst).Nodup → (∀ pe ∈ acc, (pe.2.map Prod.fst).Nodup) →
      (((rs.foldl (fun doc kv =>
          pathsInsert doc kv.2.Path (goToLower kv.2.Method) (mkDocEntry kv.2)) acc).map
            Prod.fst).Nodup ∧
        ∀ pe ∈ rs.foldl (fun doc kv =>
          pathsInsert doc kv.2.Path (goToLower kv.2.Method) (mkDocEntry kv.2)) acc,
          (pe.2.map Prod.fst).Nodup) := by
  induction rs with
  | nil => intro acc h1 h2; exact ⟨h1, h2⟩
  | cons kv rest ih =>
    intro acc h1 h2
    rw [List.foldl_cons]
    exact ih _ (keys_pathsInsert_nodup acc _ _ _ h1) (inner_nodup_pathsInsert acc _ _ _ h2)

/-- C8: for every well-formed registry state, the generated paths object
has no duplicate path keys and no duplicate method keys under any path;
a path key is present exactly when some route is registered for that
path; a cell at (path, lowercased method) holds exactly the summary,
200-response description and parameter list of the unique route
registered for that pair — a membership characterization, so the
document is independent of registration order; and the document is
computed from the registry state at invocation time, so it reflects
registrations made after server start. -/
theorem C8_openapi_document (rs : Routes)
    (hkeys : WFRouteKeys rs)
    (hnodup : (rs.map Prod.fst).Nodup)
    (hcd : CaseDistinct rs) :
    ((ServeOpenAPI rs).map Prod.fst).Nodup ∧
    (∀ pe ∈ ServeOpenAPI rs, (pe.2.map Prod.fst).Nodup) ∧
    (∀ p, docHasPath (ServeOpenAPI rs) p = true ↔ ∃ kv ∈ rs, kv.2.Path = p) ∧
    (∀ p m e, docLookup (ServeOpenAPI rs) p m = some e ↔
      ∃ kv ∈ rs, kv.2.Path = p ∧ goToLower kv.2.Method = m ∧ e = mkDocEntry kv.2) ∧
    (∀ method ts, serverHandle rs "/openapi.json" method ts =
      HttpResponse.openapiDoc (ServeOpenAPI rs)) := by
  have hwf := serve_foldl_wf rs [] (by simp) (by simp)
  refine ⟨hwf.1, hwf.2, ?_, ?_, ?_⟩
  · intro p
    rw [ServeOpenAPI, docHasPath_serve_foldl]
    simp [docHasPath, List.any_eq_true]
  · intro p m e
    rw [ServeOpenAPI, docLookup_serve_foldl]
    constructor
    · intro h
      cases hlw : lastWriter rs p m with
      | none =>
        rw [hlw] at h
        exact Option.noConfusion h
      | some r =>
        rw [hlw] at h
        obtain ⟨kv, hmem, h1, h2, h3⟩ := lastWriter_mem rs p m r hlw
        refine ⟨kv, hmem, h2, h3, ?_⟩
        rw [← Option.some.inj h, h1]
    · rintro ⟨kv, hmem, hp, hm, he⟩
      cases hlw : lastWriter rs p m with
      | none =>
        exact absurd ⟨hp, hm⟩ ((lastWriter_eq_none_iff rs p m).mp hlw kv hmem)
      | some r =>
        obtain ⟨kv', hmem', h1, h2, h3⟩ := lastWriter_mem rs p m r hlw
        have heq : kv' = kv :=
          route_mem_unique rs hkeys hnodup hcd kv' hmem' kv hmem
            (h2.trans hp.symm) (h3.trans hm.symm)
        show some (mkDocEntry r) = some e
        rw [he, ← h1, heq]
  · intro method ts
    rw [serverHandle, if_pos rfl]

/-- C8 (witness): the three-route registry rsDocs satisfies the
hypotheses, and the cell at (/hello, post) carries the summary of the
route registered with method post. -/
theorem C8_openapi_document_witness :
    docLookup (ServeOpenAPI rsDocs) "/hello" "post" =
      some { summary := "accepts a post", response200 := "Successful response",
             parameters := [] } :=
  ((C8_openapi_document rsDocs (by decide) (by decide) (by decide)).2.2.2.1 "/hello" "post"
      { summary := "accepts a post", response200 := "Successful response",
        parameters := [] }).mpr
    ⟨("/helloPOST",
      { Path := "/hello", Method := "POST", Message := "posted",
        Description := "accepts a post", Parameters := [],
        Responses := [(200, "Successful response")] }), by decide, by decide, by decide,
      by decide⟩
